import Mathlib

/-!
Verification of the image-discovery probe and per-card carousel state machine
of the product-catalog page (src/script.js).

The JavaScript source is shallowly embedded:
* `probeImagesInFolder` (script.js lines 61-112): the closure-mutated loop
  variables `idx`, `consecutiveMisses`, `found` become explicit recursion
  parameters; the array pushes become list construction in call order.
  The side-effecting speculative loads (`img.src = path`) are recorded in an
  `attempts` trace, in the order issued; the outcome of each load is an
  oracle `loads : Nat → String → Bool` (index, suffix ↦ does it load).
  The JS races the per-index extension loads and keeps the first `onload`;
  the model determinizes the winner to the first suffix in list order
  (which suffix wins does not affect any property proved here).
  A ghost list `foundIdxs` records the index of each pushed result.
* the per-card carousel (script.js lines 121-235): the closure variables
  `images`, `idx`, `interval`, `isPaused` and the DOM bits the claims speak
  about (button visibility, thumb src/alt, hint text) become a `CardState`
  record; each DOM event handler becomes a case of `cardStep`.
* JS `%` on integers is the truncated remainder (sign of the dividend),
  i.e. `Int.tmod`; JS `x || default` on numbers treats `0`/`undefined` as
  absent (`jsOrNat`), while on arrays any present array (even empty) wins
  (`jsOrList`), and on strings the empty string is falsy (`jsOrStr`).
-/

/-- One confirmed-existing image, as pushed by the prober / held by a card:
`\x7b file: path, alt: '' \x7d` in the JS. -/
structure ProbedImage where
  file : String
  alt : String
deriving DecidableEq

/-- The probed path `Images/Products/<folder>/<idx>.<sfx>` (script.js line 82). -/
def mkPath (folder : String) (idx : Nat) (sfx : String) : String :=
  "Images/Products/" ++ folder ++ "/" ++ toString idx ++ "." ++ sfx

/-- JS `options.field || default` for a numeric option: `undefined` and `0`
are falsy, so both select the default (script.js lines 62-63). -/
def jsOrNat : Option Nat → Nat → Nat
  | none, d => d
  | some 0, d => d
  | some n, _ => n

/-- JS `options.suffixes || default`: only `undefined` is falsy — a present
empty array is kept (script.js line 65). -/
def jsOrList : Option (List String) → List String → List String
  | none, d => d
  | some l, _ => l

/-- JS `a || b` on strings: the empty string is falsy (script.js line 174). -/
def jsOrStr (a b : String) : String := if a = "" then b else a

/-- The options object passed to `probeImagesInFolder`; absent fields are
`none` (JS `undefined`). -/
structure ProbeOptions where
  maxIndex : Option Nat
  missLimit : Option Nat
  suffixes : Option (List String)
deriving DecidableEq

/-- The winning suffix at a hit index: the JS keeps the first `onload` that
fires; the model takes the first loading suffix in list order. -/
def firstHit (loads : Nat → String → Bool) (suffixes : List String) (idx : Nat) : String :=
  (suffixes.filter (fun sfx => loads idx sfx)).headD ""

/-- The record pushed into `found` at a hit index (script.js line 87). -/
def probedAt (loads : Nat → String → Bool) (folder : String) (suffixes : List String)
    (idx : Nat) : ProbedImage :=
  ⟨mkPath folder idx (firstHit loads suffixes idx), ""⟩

/-- The block of speculative load attempts issued for one index: one per
suffix, in suffix order (script.js lines 81-105). -/
def attemptBlock (suffixes : List String) (idx : Nat) : List (Nat × String) :=
  suffixes.map (fun sfx => (idx, sfx))

/-- All attempts issued for a list of indices, in order. -/
def attemptBlocks (suffixes : List String) : List Nat → List (Nat × String)
  | [] => []
  | i :: rest => attemptBlock suffixes i ++ attemptBlocks suffixes rest

/-- What one probe run produces: the resolved `found` list, the ghost list of
indices at which entries were pushed, and the trace of issued load attempts. -/
structure ProbeResult where
  found : List ProbedImage
  foundIdxs : List Nat
  attempts : List (Nat × String)
deriving DecidableEq

/-- The `tryNext` loop of `probeImagesInFolder` (script.js lines 72-108).
Guard order as in the source: the stop test (`idx > MAX_INDEX ||
consecutiveMisses >= CONSECUTIVE_MISS_LIMIT`) first, then the
empty-suffix-list early resolve, then one index worth of load attempts;
the index is a hit iff some suffix loads, a hit pushes one record and
resets the miss counter, a miss increments it; either way `idx++`. -/
def probeLoop (loads : Nat → String → Bool) (MAX_INDEX MISS_LIMIT : Nat)
    (suffixes : List String) (folder : String) (idx misses : Nat) : ProbeResult :=
  if hguard : MAX_INDEX < idx ∨ MISS_LIMIT ≤ misses then ⟨[], [], []⟩
  else if suffixes = [] then ⟨[], [], []⟩
  else if suffixes.any (fun sfx => loads idx sfx) then
    let r := probeLoop loads MAX_INDEX MISS_LIMIT suffixes folder (idx + 1) 0
    ⟨probedAt loads folder suffixes idx :: r.found, idx :: r.foundIdxs,
      attemptBlock suffixes idx ++ r.attempts⟩
  else
    let r := probeLoop loads MAX_INDEX MISS_LIMIT suffixes folder (idx + 1) (misses + 1)
    ⟨r.found, r.foundIdxs, attemptBlock suffixes idx ++ r.attempts⟩
termination_by MAX_INDEX + 1 - idx
decreasing_by
  all_goals omega

/-- `probeImagesInFolder(folder, options)` (script.js lines 61-112):
applies the `||` defaults and runs the loop from `idx = 1`,
`consecutiveMisses = 0`. -/
def probeImagesInFolder (folder : String) (options : ProbeOptions)
    (loads : Nat → String → Bool) : ProbeResult :=
  let MAX_INDEX := jsOrNat options.maxIndex 12
  let MISS_LIMIT := jsOrNat options.missLimit 4
  let suffixes := jsOrList options.suffixes ["jpg", "jpeg", "png", "webp"]
  probeLoop loads MAX_INDEX MISS_LIMIT suffixes folder 1 0

/-- JS `%` on integers: truncated remainder, sign of the dividend. -/
def jsRem (a b : Int) : Int := Int.tmod a b

/-- HTML-escaping helper `escapeHtml` (script.js lines 43-50). -/
def escapeHtml (s : String) : String :=
  ((((s.replace "&" "&amp;").replace "\"" "&quot;").replace "\x27" "&#39;").replace
    "<" "&lt;").replace ">" "&gt;"

/-- Placeholder shown until the probe finishes (script.js line 126). -/
def LOADING_PLACEHOLDER : String := "https://via.placeholder.com/600x400?text=Loading"

/-- Placeholder shown when the probe found nothing (script.js line 221). -/
def NO_IMAGE_PLACEHOLDER : String := "https://via.placeholder.com/600x400?text=No+Image"

/-- Per-card carousel state: the closure variables `images`, `idx`,
`interval`, `isPaused` of `createProductCard` plus the DOM pieces the spec
speaks about. `interval` is `true` iff a repeating autoplay timer handle is
set; `prevShown`/`nextShown` model `style.display` of the two buttons
(`false` = `display:none`). -/
structure CardState where
  images : List ProbedImage
  idx : Int
  interval : Bool
  isPaused : Bool
  prevShown : Bool
  nextShown : Bool
  thumb : String
  altText : String
  hintText : String
deriving DecidableEq

/-- The card as built by the initial markup (script.js lines 135-156):
no images yet, index 0, no timer, not paused, both buttons
`display:none`, placeholder thumb, escaped product name as alt,
hint `Images loading…`. -/
def initialCard (name : String) : CardState :=
  ⟨[], 0, false, false, false, false, LOADING_PLACEHOLDER, escapeHtml name,
    "Images loading…"⟩

/-- `stopAuto()` (script.js lines 166-168): clears the timer if set. -/
def stopAuto (s : CardState) : CardState := { s with interval := false }

/-- `startAuto()` (script.js lines 159-165): clears any existing timer, and
only if more than one image exists starts the repeating autoplay timer. -/
def startAuto (s : CardState) : CardState :=
  let s1 := stopAuto s
  if s1.images.length ≤ 1 then s1
  else { s1 with interval := true }

/-- `showImage(i)` (script.js lines 170-183): no-op when `images` is empty;
otherwise sets `idx = (i + images.length) % images.length` with the JS
truncated `%`, updates the thumb src and alt (`images[idx].alt || name`),
and sets both buttons visible iff more than one image exists.
The JS indexing `images[idx]` throws on an out-of-range index; the model
uses `getD` — every call reachable from the handlers stays in range. -/
def showImage (name : String) (s : CardState) (i : Int) : CardState :=
  if s.images.length = 0 then s
  else
    let L : Int := s.images.length
    let newIdx := jsRem (i + L) L
    let img := s.images.getD newIdx.toNat ⟨"", ""⟩
    let shown := decide (1 < s.images.length)
    { s with idx := newIdx, thumb := img.file, altText := jsOrStr img.alt name,
             prevShown := shown, nextShown := shown }

/-- The events a card's handlers react to (script.js lines 186-230):
completion of the background probe, the prev/next button clicks,
hover/focus enter and leave, the four handled keys, one firing of the
autoplay timer callback, and the card click (pause/play toggle). -/
inductive CardEvent where
  | probeComplete (found : List ProbedImage)
  | prevClick
  | nextClick
  | mouseEnter
  | mouseLeave
  | focusIn
  | focusOut
  | keyArrowRight
  | keyArrowLeft
  | keySpace
  | keyEnter
  | tick
  | cardClick
deriving DecidableEq

/-- One event-handler step of a card (script.js lines 186-230).
`probeComplete found` is the async continuation after
`probeImagesInFolder` resolves (lines 210-224): on a non-empty result it
stores `found` mapped to full objects with the product name as alt, clears
the hint, shows image 0 and starts autoplay; on an empty result it swaps in
the no-image placeholder and hint. `tick` is one firing of the interval
callback (line 162-164): it only exists while a timer is set, and advances
only when not paused, via `showImage((idx + 1) % images.length)`.
`cardClick` (lines 227-230) flips the pause flag and restarts autoplay when
now unpaused with no timer running. -/
def cardStep (name : String) (s : CardState) : CardEvent → CardState
  | CardEvent.probeComplete found =>
      if found.length ≠ 0 then
        let s1 := { s with images := found.map (fun f => ProbedImage.mk f.file name),
                           hintText := "" }
        startAuto (showImage name s1 0)
      else
        { s with thumb := NO_IMAGE_PLACEHOLDER, hintText := "No images available" }
  | CardEvent.prevClick => showImage name s (s.idx - 1)
  | CardEvent.nextClick => showImage name s (s.idx + 1)
  | CardEvent.mouseEnter => { s with isPaused := true }
  | CardEvent.mouseLeave => { s with isPaused := false }
  | CardEvent.focusIn => { s with isPaused := true }
  | CardEvent.focusOut => { s with isPaused := false }
  | CardEvent.keyArrowRight => showImage name s (s.idx + 1)
  | CardEvent.keyArrowLeft => showImage name s (s.idx - 1)
  | CardEvent.keySpace => { s with isPaused := !s.isPaused }
  | CardEvent.keyEnter => s
  | CardEvent.tick =>
      if s.interval then
        if !s.isPaused then showImage name s (jsRem (s.idx + 1) s.images.length)
        else s
      else s
  | CardEvent.cardClick =>
      let s1 := { s with isPaused := !s.isPaused }
      if !s1.isPaused && !s1.interval then startAuto s1 else s1

/-- A card's state after a sequence of events, starting from the initial
markup. -/
def runEvents (name : String) (evs : List CardEvent) : CardState :=
  evs.foldl (cardStep name) (initialCard name)

/-- A catalog entry (script.js lines 8-30 and products.json records). -/
structure Product where
  id : Nat
  pname : String
  folder : String
deriving DecidableEq

/-- The embedded fallback product list `EMBEDDED_PRODUCTS`
(script.js lines 8-30). -/
def EMBEDDED_PRODUCTS : List Product :=
  [⟨1, "Baby Rockers", "BabyRockers"⟩,
   ⟨2, "Bero", "Bero"⟩,
   ⟨3, "Ceiling Fan", "ceilingfan"⟩,
   ⟨4, "Chair", "Chair"⟩,
   ⟨5, "Cooker", "Cooker"⟩,
   ⟨6, "Cot", "Cot"⟩,
   ⟨7, "Dressing Table", "DressingTable"⟩,
   ⟨8, "Electric Rice Cooker", "ElectricRiceCooker"⟩,
   ⟨9, "Gas Stove", "GasStove"⟩,
   ⟨10, "House Hold Plastic Products", "HouseHoldPlasticProducts"⟩,
   ⟨11, "Induction Stove", "InductionStove"⟩,
   ⟨12, "Matress", "Matress"⟩,
   ⟨13, "Mixer-Grinder", "MixerGrinder"⟩,
   ⟨14, "Office Table", "OfficeTable"⟩,
   ⟨15, "Pedestal Fan", "PedestalFan"⟩,
   ⟨16, "Plastic Containers", "PlasticContainers"⟩,
   ⟨17, "Pooja Rack", "PoojaRack"⟩,
   ⟨18, "System Table", "SystemTable"⟩,
   ⟨19, "Table Fan", "TableFan"⟩,
   ⟨20, "Table Top Grinder", "TableTopGrinder"⟩,
   ⟨21, "Wire Cot", "WireCot"⟩]

/-- The product grid container's contents after `loadProducts` ran. -/
inductive GridState where
  | notice (msg : String)
  | cards (cs : List CardState)
deriving DecidableEq

/-- `loadProducts()` (script.js lines 325-343). The `safeFetchJson` outcome
is the parameter: `none` models network error, non-2xx status or JSON parse
failure (all collapsed to `null` by `safeFetchJson`, lines 33-41); on `none`
the embedded fallback list is substituted. An empty product list yields the
plain `Unable to load products.` notice; otherwise one card per product is
appended, each in its initial markup state. -/
def loadProducts (fetchResult : Option (List Product)) : GridState :=
  let products := match fetchResult with
    | none => EMBEDDED_PRODUCTS
    | some ps => ps
  if products.length = 0 then GridState.notice "Unable to load products."
  else GridState.cards (products.map (fun p => initialCard p.pname))

/-! Helper lemmas -/

theorem jsOrNat_of_pos (n d : Nat) (h : 1 ≤ n) : jsOrNat (some n) d = n := by
  cases n with
  | zero => omega
  | succ m => rfl

theorem jsRem_eq_emod (a b : Int) (ha : 0 ≤ a) (hb : 0 ≤ b) : jsRem a b = a % b :=
  Int.tmod_eq_emod ha hb

theorem jsRem_bounds (a b : Int) (ha : 0 ≤ a) (hb : 0 < b) :
    0 ≤ jsRem a b ∧ jsRem a b < b := by
  rw [jsRem_eq_emod a b ha (le_of_lt hb)]
  exact ⟨Int.emod_nonneg a (by omega), Int.emod_lt_of_pos a hb⟩

theorem showImage_of_empty (name : String) (s : CardState) (i : Int)
    (h : s.images.length = 0) : showImage name s i = s := by
  unfold showImage
  rw [if_pos h]

theorem showImage_eq (name : String) (s : CardState) (i : Int)
    (h : ¬ s.images.length = 0) :
    showImage name s i =
      { s with
        idx := jsRem (i + (s.images.length : Int)) (s.images.length : Int),
        thumb := (s.images.getD
          (jsRem (i + (s.images.length : Int)) (s.images.length : Int)).toNat
          ⟨"", ""⟩).file,
        altText := jsOrStr (s.images.getD
          (jsRem (i + (s.images.length : Int)) (s.images.length : Int)).toNat
          ⟨"", ""⟩).alt name,
        prevShown := decide (1 < s.images.length),
        nextShown := decide (1 < s.images.length) } := by
  unfold showImage
  rw [if_neg h]

theorem startAuto_of_le_one (s : CardState) (h : s.images.length ≤ 1) :
    startAuto s = { s with interval := false } := by
  unfold startAuto stopAuto
  rw [if_pos h]

theorem startAuto_of_many (s : CardState) (h : ¬ s.images.length ≤ 1) :
    startAuto s = { s with interval := true } := by
  unfold startAuto stopAuto
  rw [if_neg h]

/-! Step equations of the probe loop -/

theorem probeLoop_stop (loads : Nat → String → Bool) (M L : Nat) (s : List String)
    (f : String) (idx misses : Nat) (h : M < idx ∨ L ≤ misses) :
    probeLoop loads M L s f idx misses = ⟨[], [], []⟩ := by
  rw [probeLoop.eq_def, dif_pos h]

theorem probeLoop_nil (loads : Nat → String → Bool) (M L : Nat) (f : String)
    (idx misses : Nat) (h : ¬ (M < idx ∨ L ≤ misses)) :
    probeLoop loads M L [] f idx misses = ⟨[], [], []⟩ := by
  rw [probeLoop.eq_def, dif_neg h, if_pos rfl]

theorem probeLoop_hitStep (loads : Nat → String → Bool) (M L : Nat) (s : List String)
    (f : String) (idx misses : Nat) (h : ¬ (M < idx ∨ L ≤ misses)) (hs : ¬ s = [])
    (hh : s.any (fun sfx => loads idx sfx) = true) :
    probeLoop loads M L s f idx misses =
      ⟨probedAt loads f s idx :: (probeLoop loads M L s f (idx + 1) 0).found,
       idx :: (probeLoop loads M L s f (idx + 1) 0).foundIdxs,
       attemptBlock s idx ++ (probeLoop loads M L s f (idx + 1) 0).attempts⟩ := by
  rw [probeLoop.eq_def, dif_neg h, if_neg hs, if_pos hh]

theorem probeLoop_missStep (loads : Nat → String → Bool) (M L : Nat) (s : List String)
    (f : String) (idx misses : Nat) (h : ¬ (M < idx ∨ L ≤ misses)) (hs : ¬ s = [])
    (hh : ¬ s.any (fun sfx => loads idx sfx) = true) :
    probeLoop loads M L s f idx misses =
      ⟨(probeLoop loads M L s f (idx + 1) (misses + 1)).found,
       (probeLoop loads M L s f (idx + 1) (misses + 1)).foundIdxs,
       attemptBlock s idx ++ (probeLoop loads M L s f (idx + 1) (misses + 1)).attempts⟩ := by
  rw [probeLoop.eq_def, dif_neg h, if_neg hs, if_neg hh]

theorem attemptBlocks_cons (s : List String) (i : Nat) (rest : List Nat) :
    attemptBlocks s (i :: rest) = attemptBlock s i ++ attemptBlocks s rest := rfl

/-- Shape of any probe run: the attempt trace is exactly the per-index blocks
of some consecutive index range starting at `idx`, of bounded length, the
ghost indices of pushed results are strictly increasing and fall inside
that range, and one result was pushed per recorded index. -/
theorem probeLoop_shape (loads : Nat → String → Bool) (M L : Nat) (s : List String)
    (f : String) :
    ∀ n idx misses, M + 1 - idx ≤ n →
      ∃ t, t ≤ M + 1 - idx ∧
        (probeLoop loads M L s f idx misses).attempts =
          attemptBlocks s (List.range' idx t) ∧
        List.Chain' (· < ·) (probeLoop loads M L s f idx misses).foundIdxs ∧
        (∀ j ∈ (probeLoop loads M L s f idx misses).foundIdxs, idx ≤ j ∧ j < idx + t) ∧
        (probeLoop loads M L s f idx misses).found.length =
          (probeLoop loads M L s f idx misses).foundIdxs.length := by
  intro n
  induction n with
  | zero =>
      intro idx misses hn
      rw [probeLoop_stop loads M L s f idx misses (by omega)]
      exact ⟨0, by omega, rfl, List.chain'_nil, by simp, rfl⟩
  | succ n ih =>
      intro idx misses hn
      by_cases hstop : M < idx ∨ L ≤ misses
      · rw [probeLoop_stop loads M L s f idx misses hstop]
        exact ⟨0, by omega, rfl, List.chain'_nil, by simp, rfl⟩
      by_cases hs : s = []
      · subst hs
        rw [probeLoop_nil loads M L f idx misses hstop]
        exact ⟨0, by omega, rfl, List.chain'_nil, by simp, rfl⟩
      have hidx : idx ≤ M := by omega
      by_cases hh : s.any (fun sfx => loads idx sfx) = true
      · rw [probeLoop_hitStep loads M L s f idx misses hstop hs hh]
        obtain ⟨t, ht, ha, hc, hm, hl⟩ := ih (idx + 1) 0 (by omega)
        refine ⟨t + 1, by omega, ?_, ?_, ?_, ?_⟩
        · show attemptBlock s idx ++ _ = _
          rw [List.range'_succ, attemptBlocks_cons, ha]
        · show List.Chain' (· < ·) (idx :: _)
          rw [List.chain'_cons']
          refine ⟨?_, hc⟩
          intro y hy
          have hmem : y ∈ (probeLoop loads M L s f (idx + 1) 0).foundIdxs :=
            List.mem_of_mem_head? hy
          have := hm y hmem
          omega
        · intro j hj
          rcases List.mem_cons.mp hj with hj | hj
          · omega
          · have := hm j hj
            omega
        · show _ + 1 = _ + 1
          omega
      · rw [probeLoop_missStep loads M L s f idx misses hstop hs hh]
        obtain ⟨t, ht, ha, hc, hm, hl⟩ := ih (idx + 1) (misses + 1) (by omega)
        refine ⟨t + 1, by omega, ?_, hc, ?_, hl⟩
        · show attemptBlock s idx ++ _ = _
          rw [List.range'_succ, attemptBlocks_cons, ha]
        · intro j hj
          have := hm j hj
          omega

/-- When no index at or beyond the current one is a hit, the probe finds
nothing and attempts exactly the indices up to the sooner of `maxIndex` and
the point where the consecutive-miss counter reaches the limit. -/
theorem probeLoop_missFrom (loads : Nat → String → Bool) (M L : Nat) (s : List String)
    (f : String) (hs : ¬ s = []) :
    ∀ n idx misses, M + 1 - idx ≤ n →
      (∀ j, idx ≤ j → s.any (fun sfx => loads j sfx) = false) →
      probeLoop loads M L s f idx misses =
        ⟨[], [], attemptBlocks s (List.range' idx (min (M + 1 - idx) (L - misses)))⟩ := by
  intro n
  induction n with
  | zero =>
      intro idx misses hn hmiss
      rw [probeLoop_stop loads M L s f idx misses (by omega)]
      have h0 : min (M + 1 - idx) (L - misses) = 0 := by omega
      rw [h0, List.range'_zero]
      rfl
  | succ n ih =>
      intro idx misses hn hmiss
      by_cases hstop : M < idx ∨ L ≤ misses
      · rw [probeLoop_stop loads M L s f idx misses hstop]
        have h0 : min (M + 1 - idx) (L - misses) = 0 := by omega
        rw [h0, List.range'_zero]
        rfl
      have hh : ¬ s.any (fun sfx => loads idx sfx) = true := by
        rw [hmiss idx (le_refl idx)]
        exact Bool.false_ne_true
      rw [probeLoop_missStep loads M L s f idx misses hstop hs hh]
      rw [ih (idx + 1) (misses + 1) (by omega) (fun j hj => hmiss j (by omega))]
      have harith : min (M + 1 - idx) (L - misses) =
          min (M + 1 - (idx + 1)) (L - (misses + 1)) + 1 := by omega
      rw [harith, List.range'_succ, attemptBlocks_cons]

/-- When the hit indices are exactly `1..k` (`k ≤ maxIndex`), the probe run
from any start index in `1..k+1` with a fresh miss counter pushes exactly
the indices up to `k` and attempts exactly the indices up to
`min maxIndex (k + missLimit)`. -/
theorem probeLoop_prefixRun (loads : Nat → String → Bool) (M L k : Nat)
    (s : List String) (f : String) (hs : ¬ s = []) (hL : 1 ≤ L) (hkM : k ≤ M)
    (hor : ∀ j, (s.any (fun sfx => loads j sfx) = true) ↔ (1 ≤ j ∧ j ≤ k)) :
    ∀ n idx, k + 1 - idx ≤ n → 1 ≤ idx → idx ≤ k + 1 →
      probeLoop loads M L s f idx 0 =
        ⟨(List.range' idx (k + 1 - idx)).map (fun i => probedAt loads f s i),
         List.range' idx (k + 1 - idx),
         attemptBlocks s (List.range' idx (min M (k + L) + 1 - idx))⟩ := by
  intro n
  induction n with
  | zero =>
      intro idx hn h1 hk1
      have hidx : idx = k + 1 := by omega
      subst hidx
      rw [probeLoop_missFrom loads M L s f hs (M + 1 - (k + 1)) (k + 1) 0 (le_refl _)
        (fun j hj => by
          cases hja : s.any (fun sfx => loads j sfx) with
          | false => rfl
          | true =>
              have := (hor j).mp hja
              omega)]
      have h0 : k + 1 - (k + 1) = 0 := by omega
      have harith : min (M + 1 - (k + 1)) (L - 0) = min M (k + L) + 1 - (k + 1) := by
        omega
      rw [h0, harith, List.range'_zero, List.map_nil]
  | succ n ih =>
      intro idx hn h1 hk1
      by_cases hik : idx = k + 1
      · subst hik
        rw [probeLoop_missFrom loads M L s f hs (M + 1 - (k + 1)) (k + 1) 0 (le_refl _)
          (fun j hj => by
            cases hja : s.any (fun sfx => loads j sfx) with
            | false => rfl
            | true =>
                have := (hor j).mp hja
                omega)]
        have h0 : k + 1 - (k + 1) = 0 := by omega
        have harith : min (M + 1 - (k + 1)) (L - 0) = min M (k + L) + 1 - (k + 1) := by
          omega
        rw [h0, harith, List.range'_zero, List.map_nil]
      have hikk : idx ≤ k := by omega
      have hstop : ¬ (M < idx ∨ L ≤ 0) := by omega
      have hh : s.any (fun sfx => loads idx sfx) = true := (hor idx).mpr ⟨h1, hikk⟩
      rw [probeLoop_hitStep loads M L s f idx 0 hstop hs hh]
      rw [ih (idx + 1) (by omega) (by omega) (by omega)]
      have e1 : k + 1 - idx = (k + 1 - (idx + 1)) + 1 := by omega
      have e2 : min M (k + L) + 1 - idx = (min M (k + L) + 1 - (idx + 1)) + 1 := by
        omega
      rw [e1, e2, List.range'_succ, List.range'_succ, List.map_cons, attemptBlocks_cons]

/-! Carousel invariants -/

/-- The index invariant of a card: the current index is non-negative, and
within range whenever any images are held. -/
def IdxInv (s : CardState) : Prop :=
  0 ≤ s.idx ∧ (s.images ≠ [] → s.idx < (s.images.length : Int))

theorem IdxInv_showImage (name : String) (s : CardState) (i : Int)
    (h : s.images = [] → IdxInv s)
    (hi : s.images ≠ [] → 0 ≤ i + (s.images.length : Int)) :
    IdxInv (showImage name s i) := by
  by_cases hne : s.images = []
  · rw [showImage_of_empty name s i (by simp [hne])]
    exact h hne
  · have hL : ¬ s.images.length = 0 := by simpa using hne
    have hLpos : (0 : Int) < (s.images.length : Int) := by
      exact_mod_cast Nat.pos_of_ne_zero hL
    have hb := jsRem_bounds (i + (s.images.length : Int)) (s.images.length : Int)
      (hi hne) hLpos
    rw [showImage_eq name s i hL]
    exact ⟨hb.1, fun _ => hb.2⟩

theorem IdxInv_startAuto (s : CardState) (h : IdxInv s) : IdxInv (startAuto s) := by
  by_cases hle : s.images.length ≤ 1
  · rw [startAuto_of_le_one s hle]
    exact h
  · rw [startAuto_of_many s hle]
    exact h

theorem IdxInv_cardStep (name : String) (s : CardState) (e : CardEvent)
    (h : IdxInv s) : IdxInv (cardStep name s e) := by
  have hnn : s.images ≠ [] → (1 : Int) ≤ (s.images.length : Int) := by
    intro hne
    have : ¬ s.images.length = 0 := by simpa using hne
    exact_mod_cast Nat.pos_of_ne_zero this
  cases e with
  | probeComplete found =>
      show IdxInv (if found.length ≠ 0 then _ else _)
      by_cases hf : found.length ≠ 0
      · rw [if_pos hf]
        apply IdxInv_startAuto
        apply IdxInv_showImage
        · intro hc
          exact absurd (congrArg List.length hc) (by simpa using hf)
        · intro _
          have : (0 : Int) ≤ ((found.map
              (fun fi => ProbedImage.mk fi.file name)).length : Int) := by positivity
          omega
      · rw [if_neg hf]
        exact h
  | prevClick =>
      apply IdxInv_showImage name s (s.idx - 1) (fun _ => h)
      intro hne
      have := hnn hne
      have := h.1
      omega
  | nextClick =>
      apply IdxInv_showImage name s (s.idx + 1) (fun _ => h)
      intro hne
      have := hnn hne
      have := h.1
      omega
  | mouseEnter => exact h
  | mouseLeave => exact h
  | focusIn => exact h
  | focusOut => exact h
  | keyArrowRight =>
      apply IdxInv_showImage name s (s.idx + 1) (fun _ => h)
      intro hne
      have := hnn hne
      have := h.1
      omega
  | keyArrowLeft =>
      apply IdxInv_showImage name s (s.idx - 1) (fun _ => h)
      intro hne
      have := hnn hne
      have := h.1
      omega
  | keySpace => exact h
  | keyEnter => exact h
  | tick =>
      show IdxInv (if s.interval then _ else _)
      by_cases hint : s.interval
      · rw [if_pos hint]
        by_cases hp : !s.isPaused
        · rw [if_pos hp]
          apply IdxInv_showImage name s _ (fun _ => h)
          intro hne
          have h1 := hnn hne
          have h2 := (jsRem_bounds (s.idx + 1) (s.images.length : Int)
            (by have := h.1; omega) (by omega)).1
          omega
        · rw [if_neg hp]
          exact h
      · rw [if_neg hint]
        exact h
  | cardClick =>
      show IdxInv (if _ then startAuto _ else _)
      by_cases hc : (!(!s.isPaused) && !s.interval) = true
      · rw [if_pos hc]
        exact IdxInv_startAuto _ h
      · rw [if_neg hc]
        exact h

theorem IdxInv_foldl (name : String) (evs : List CardEvent) :
    ∀ s : CardState, IdxInv s → IdxInv (evs.foldl (cardStep name) s) := by
  induction evs with
  | nil => intro s h; exact h
  | cons e rest ih =>
      intro s h
      exact ih (cardStep name s e) (IdxInv_cardStep name s e h)

theorem IdxInv_initialCard (name : String) : IdxInv (initialCard name) := by
  refine ⟨le_refl 0, ?_⟩
  intro hc
  exact absurd rfl hc

/-- Invariant of a card that never receives more than one image: at most one
image held, no autoplay timer set, both navigation buttons hidden. -/
def OneImageInv (s : CardState) : Prop :=
  s.images.length ≤ 1 ∧ s.interval = false ∧ s.prevShown = false ∧ s.nextShown = false

theorem OneImageInv_showImage (name : String) (s : CardState) (i : Int)
    (h : OneImageInv s) : OneImageInv (showImage name s i) := by
  by_cases h0 : s.images.length = 0
  · rw [showImage_of_empty name s i h0]
    exact h
  · rw [showImage_eq name s i h0]
    refine ⟨h.1, h.2.1, ?_, ?_⟩
    · show decide (1 < s.images.length) = false
      have h1 := h.1
      have : ¬ 1 < s.images.length := by omega
      simp [this]
    · show decide (1 < s.images.length) = false
      have h1 := h.1
      have : ¬ 1 < s.images.length := by omega
      simp [this]

theorem OneImageInv_startAuto (s : CardState) (h : OneImageInv s) :
    OneImageInv (startAuto s) := by
  rw [startAuto_of_le_one s h.1]
  exact ⟨h.1, rfl, h.2.2⟩

theorem OneImageInv_cardStep (name : String) (s : CardState) (e : CardEvent)
    (h : OneImageInv s)
    (he : ∀ found, e = CardEvent.probeComplete found → found.length ≤ 1) :
    OneImageInv (cardStep name s e) := by
  cases e with
  | probeComplete found =>
      show OneImageInv (if found.length ≠ 0 then _ else _)
      have hf1 : found.length ≤ 1 := he found rfl
      by_cases hf : found.length ≠ 0
      · rw [if_pos hf]
        apply OneImageInv_startAuto
        apply OneImageInv_showImage
        exact ⟨by simpa using hf1, h.2.1, h.2.2⟩
      · rw [if_neg hf]
        exact ⟨h.1, h.2⟩
  | prevClick => exact OneImageInv_showImage name s _ h
  | nextClick => exact OneImageInv_showImage name s _ h
  | mouseEnter => exact h
  | mouseLeave => exact h
  | focusIn => exact h
  | focusOut => exact h
  | keyArrowRight => exact OneImageInv_showImage name s _ h
  | keyArrowLeft => exact OneImageInv_showImage name s _ h
  | keySpace => exact h
  | keyEnter => exact h
  | tick =>
      show OneImageInv (if s.interval then _ else _)
      rw [h.2.1]
      rw [if_neg Bool.false_ne_true]
      exact h
  | cardClick =>
      show OneImageInv (if _ then startAuto _ else _)
      by_cases hc : (!(!s.isPaused) && !s.interval) = true
      · rw [if_pos hc]
        exact OneImageInv_startAuto _ h
      · rw [if_neg hc]
        exact h

theorem OneImageInv_foldl (name : String) (evs : List CardEvent) :
    ∀ s : CardState, OneImageInv s →
      (∀ found, CardEvent.probeComplete found ∈ evs → found.length ≤ 1) →
      OneImageInv (evs.foldl (cardStep name) s) := by
  induction evs with
  | nil => intro s h _; exact h
  | cons e rest ih =>
      intro s h he
      apply ih (cardStep name s e)
      · apply OneImageInv_cardStep name s e h
        intro found hfe
        exact he found (by rw [hfe] at *; exact List.mem_cons_self _ _)
      · intro found hmem
        exact he found (List.mem_cons_of_mem e hmem)

theorem OneImageInv_initialCard (name : String) : OneImageInv (initialCard name) :=
  ⟨Nat.zero_le 1, rfl, rfl, rfl⟩

/-- Invariant of a card after its probe completed with at least two images:
at least two images held, the autoplay timer set, both navigation buttons
visible, and the index in range. -/
def MultiImageInv (s : CardState) : Prop :=
  2 ≤ s.images.length ∧ s.interval = true ∧ s.prevShown = true ∧ s.nextShown = true ∧
  0 ≤ s.idx ∧ s.idx < (s.images.length : Int)

theorem showImage_props (name : String) (s : CardState) (i : Int)
    (h2 : 2 ≤ s.images.length) (hi : 0 ≤ i + (s.images.length : Int)) :
    (showImage name s i).images = s.images ∧
    (showImage name s i).interval = s.interval ∧
    (showImage name s i).prevShown = true ∧ (showImage name s i).nextShown = true ∧
    0 ≤ (showImage name s i).idx ∧
    (showImage name s i).idx < ((showImage name s i).images.length : Int) := by
  have h0 : ¬ s.images.length = 0 := by omega
  have hb := jsRem_bounds (i + (s.images.length : Int)) (s.images.length : Int) hi
    (by exact_mod_cast Nat.pos_of_ne_zero h0)
  rw [showImage_eq name s i h0]
  refine ⟨rfl, rfl, ?_, ?_, hb.1, hb.2⟩
  · show decide (1 < s.images.length) = true
    simp [show 1 < s.images.length from by omega]
  · show decide (1 < s.images.length) = true
    simp [show 1 < s.images.length from by omega]

theorem MultiImageInv_startAuto (s : CardState) (h2 : 2 ≤ s.images.length)
    (hrest : s.prevShown = true ∧ s.nextShown = true ∧ 0 ≤ s.idx ∧
      s.idx < (s.images.length : Int)) :
    MultiImageInv (startAuto s) := by
  rw [startAuto_of_many s (by omega)]
  exact ⟨h2, rfl, hrest.1, hrest.2.1, hrest.2.2.1, hrest.2.2.2⟩

theorem MultiImageInv_showImage (name : String) (s : CardState) (i : Int)
    (h : MultiImageInv s) (hi : 0 ≤ i + (s.images.length : Int)) :
    MultiImageInv (showImage name s i) := by
  obtain ⟨him, hint, hprev, hnext, hge, hlt⟩ := showImage_props name s i h.1 hi
  refine ⟨?_, ?_, hprev, hnext, hge, hlt⟩
  · rw [him]
    exact h.1
  · rw [hint]
    exact h.2.1

theorem MultiImageInv_cardStep (name : String) (s : CardState) (e : CardEvent)
    (h : MultiImageInv s) (he : ∀ found, e ≠ CardEvent.probeComplete found) :
    MultiImageInv (cardStep name s e) := by
  obtain ⟨h2, hint, hprev, hnext, hge, hlt⟩ := h
  have hinv : MultiImageInv s := ⟨h2, hint, hprev, hnext, hge, hlt⟩
  cases e with
  | probeComplete found => exact absurd rfl (he found)
  | prevClick => exact MultiImageInv_showImage name s _ hinv (by omega)
  | nextClick => exact MultiImageInv_showImage name s _ hinv (by omega)
  | mouseEnter => exact hinv
  | mouseLeave => exact hinv
  | focusIn => exact hinv
  | focusOut => exact hinv
  | keyArrowRight => exact MultiImageInv_showImage name s _ hinv (by omega)
  | keyArrowLeft => exact MultiImageInv_showImage name s _ hinv (by omega)
  | keySpace => exact hinv
  | keyEnter => exact hinv
  | tick =>
      show MultiImageInv (if s.interval then _ else _)
      rw [hint, if_pos rfl]
      by_cases hp : !s.isPaused
      · rw [if_pos hp]
        apply MultiImageInv_showImage name s _ hinv
        have := (jsRem_bounds (s.idx + 1) (s.images.length : Int) (by omega)
          (by omega)).1
        omega
      · rw [if_neg hp]
        exact hinv
  | cardClick =>
      show MultiImageInv (if _ then startAuto _ else _)
      by_cases hc : (!(!s.isPaused) && !s.interval) = true
      · rw [if_pos hc]
        exact MultiImageInv_startAuto _ h2 ⟨hprev, hnext, hge, hlt⟩
      · rw [if_neg hc]
        exact hinv

theorem MultiImageInv_foldl (name : String) (evs : List CardEvent) :
    ∀ s : CardState, MultiImageInv s →
      (∀ found, CardEvent.probeComplete found ∉ evs) →
      MultiImageInv (evs.foldl (cardStep name) s) := by
  induction evs with
  | nil => intro s h _; exact h
  | cons e rest ih =>
      intro s h he
      apply ih (cardStep name s e)
      · apply MultiImageInv_cardStep name s e h
        intro found hfe
        exact he found (by rw [hfe] at *; exact List.mem_cons_self _ _)
      · intro found hmem
        exact he found (List.mem_cons_of_mem e hmem)

theorem MultiImageInv_probeComplete (name : String) (s : CardState)
    (found : List ProbedImage) (h2 : 2 ≤ found.length) :
    MultiImageInv (cardStep name s (CardEvent.probeComplete found)) := by
  show MultiImageInv (if found.length ≠ 0 then _ else _)
  rw [if_pos (by omega : found.length ≠ 0)]
  apply MultiImageInv_startAuto
  case h2 =>
    have him := (showImage_props name
      { s with images := found.map (fun f => ProbedImage.mk f.file name),
               hintText := "" } 0 (by simpa using h2) (by
        have : (0 : Int) ≤ ((found.map
            (fun f => ProbedImage.mk f.file name)).length : Int) := by positivity
        omega)).1
    rw [him]
    simpa using h2
  case hrest =>
    obtain ⟨him, _, hprev, hnext, hge, hlt⟩ := showImage_props name
      { s with images := found.map (fun f => ProbedImage.mk f.file name),
               hintText := "" } 0 (by simpa using h2) (by
        have : (0 : Int) ≤ ((found.map
            (fun f => ProbedImage.mk f.file name)).length : Int) := by positivity
        omega)
    exact ⟨hprev, hnext, hge, hlt⟩

/-! Claim theorems -/

/-- A concrete Active-state card holding three images, used as a test input. -/
def demoState : CardState :=
  { initialCard "Chair" with
    images := [⟨"Images/Products/Chair/1.jpg", ""⟩, ⟨"Images/Products/Chair/2.jpg", ""⟩,
               ⟨"Images/Products/Chair/3.jpg", ""⟩] }

/-- C1 is false as stated: on a card with 3 images, `showImage (-4)` stores
index `-1` — the JS truncated remainder `((-4) + 3) % 3` — while the claimed
normalized value `(((-4) mod 3) + 3) mod 3` is `2`. -/
theorem c1_counterexample_negative_wraparound :
    (showImage "Chair" demoState (-4)).idx = -1 ∧
    (((-4 : Int) % 3) + 3) % 3 = 2 ∧
    (showImage "Chair" demoState (-4)).idx ≠ (((-4 : Int) % 3) + 3) % 3 := by
  refine ⟨?_, by decide, ?_⟩
  · rw [showImage_eq "Chair" demoState (-4) (by decide)]
    decide
  · rw [showImage_eq "Chair" demoState (-4) (by decide)]
    decide

/-- C1 (amended): for a card in the Active state with a non-empty image list
of length `L` and any integer `i` with `-L ≤ i`, `showImage i` sets the
current index to `((i mod L) + L) mod L`, normalized into `[0, L)`; for
`i < -L` the code instead stores the negative JS remainder `(i + L) % L`. -/
theorem c1_showImage_normalizes_above_negL (name : String) (s : CardState) (i : Int)
    (hne : ¬ s.images.length = 0) (hi : -(s.images.length : Int) ≤ i) :
    (showImage name s i).idx =
      ((i % (s.images.length : Int)) + (s.images.length : Int)) %
        (s.images.length : Int) := by
  have hLpos : (0 : Int) < (s.images.length : Int) := by
    exact_mod_cast Nat.pos_of_ne_zero hne
  rw [showImage_eq name s i hne]
  show jsRem (i + (s.images.length : Int)) (s.images.length : Int) = _
  rw [jsRem_eq_emod _ _ (by omega) (by omega)]
  rw [Int.add_emod_self, Int.add_emod_self, Int.emod_emod_of_dvd i dvd_rfl]

/-- C1 witness: the amended statement applied at the three-image card and
`i = -1` (a wraparound actually reachable from `previous()` at index 0). -/
theorem c1_showImage_normalizes_above_negL_witness :
    (¬ demoState.images.length = 0) ∧
    (-(demoState.images.length : Int) ≤ -1) ∧
    (showImage "Chair" demoState (-1)).idx =
      (((-1 : Int) % (demoState.images.length : Int)) + (demoState.images.length : Int)) %
        (demoState.images.length : Int) :=
  ⟨by decide, by decide,
    c1_showImage_normalizes_above_negL "Chair" demoState (-1) (by decide) (by decide)⟩

/-- C4: with an explicitly empty extension (suffix) list, the probe resolves
immediately with the empty result and issues no load attempts, for any
folder, any numeric options and any load-outcome oracle. -/
theorem c4_empty_suffixes_resolve_immediately (folder : String) (mi ml : Option Nat)
    (loads : Nat → String → Bool) :
    probeImagesInFolder folder ⟨mi, ml, some []⟩ loads = ⟨[], [], []⟩ := by
  show probeLoop loads (jsOrNat mi 12) (jsOrNat ml 4) [] folder 1 0 = ⟨[], [], []⟩
  by_cases hstop : jsOrNat mi 12 < 1 ∨ jsOrNat ml 4 ≤ 0
  · exact probeLoop_stop loads _ _ [] folder 1 0 hstop
  · exact probeLoop_nil loads _ _ folder 1 0 hstop

/-- C7: when the catalog fetch fails (`safeFetchJson` yields `null`),
`loadProducts` falls back to the embedded list of exactly 21 products and
renders exactly 21 cards, each initially showing the loading placeholder
image and the `Images loading…` hint. -/
theorem c7_fetch_failure_renders_21_loading_cards :
    ∃ cs : List CardState,
      loadProducts none = GridState.cards cs ∧
      cs.length = 21 ∧
      EMBEDDED_PRODUCTS.length = 21 ∧
      ∀ c ∈ cs, c.thumb = LOADING_PLACEHOLDER ∧ c.hintText = "Images loading…" := by
  refine ⟨EMBEDDED_PRODUCTS.map (fun p => initialCard p.pname), ?_, rfl, rfl, ?_⟩
  · unfold loadProducts
    rw [if_neg (by decide : ¬ EMBEDDED_PRODUCTS.length = 0)]
  intro c hc
  rw [List.mem_map] at hc
  obtain ⟨p, _, rfl⟩ := hc
  exact ⟨rfl, rfl⟩

/-- C10: passing `maxIndex = 0` or `missLimit = 0` hits the falsy branch of
the JS `||` defaulting, so the probe behaves exactly as with the defaults
`maxIndex = 12`, `missLimit = 4`; in particular `missLimit = 0` does not
terminate the probe immediately — the first index is still attempted. -/
theorem c10_zero_options_behave_as_defaults (folder : String)
    (loads : Nat → String → Bool) :
    probeImagesInFolder folder ⟨some 0, some 0, none⟩ loads =
      probeImagesInFolder folder ⟨none, none, none⟩ loads ∧
    jsOrNat (some 0) 12 = 12 ∧ jsOrNat (some 0) 4 = 4 ∧
    (probeImagesInFolder folder ⟨some 0, some 0, none⟩ loads).attempts ≠ [] := by
  refine ⟨rfl, rfl, rfl, ?_⟩
  show (probeLoop loads 12 4 ["jpg", "jpeg", "png", "webp"] folder 1 0).attempts ≠ []
  have hstop : ¬ ((12 : Nat) < 1 ∨ (4 : Nat) ≤ 0) := by omega
  by_cases hh : (["jpg", "jpeg", "png", "webp"].any fun sfx => loads 1 sfx) = true
  · rw [probeLoop_hitStep loads 12 4 _ folder 1 0 hstop (by decide) hh]
    simp [attemptBlock]
  · rw [probeLoop_missStep loads 12 4 _ folder 1 0 hstop (by decide) hh]
    simp [attemptBlock]

/-- C2: when images exist exactly at indices `1..k` (no suffix loads at any
other index), with `k ≤ maxIndex` and positive limits, the probe returns
exactly the `k` results for indices `1, …, k` in increasing order, and its
load attempts are exactly the per-suffix blocks for the consecutive indices
`1, …, min maxIndex (k + missLimit)` — no attempt is issued beyond that
stopping point. -/
theorem c2_prefix_folder_probe (folder : String) (k maxI missL : Nat)
    (s : List String) (loads : Nat → String → Bool)
    (hs : ¬ s = []) (hmx : 1 ≤ maxI) (hml : 1 ≤ missL) (hkM : k ≤ maxI)
    (hor : ∀ j, ((s.any fun sfx => loads j sfx) = true) ↔ (1 ≤ j ∧ j ≤ k)) :
    probeImagesInFolder folder ⟨some maxI, some missL, some s⟩ loads =
      ⟨(List.range' 1 k).map (fun i => probedAt loads folder s i),
       List.range' 1 k,
       attemptBlocks s (List.range' 1 (min maxI (k + missL)))⟩ := by
  show probeLoop loads (jsOrNat (some maxI) 12) (jsOrNat (some missL) 4) s folder 1 0 = _
  rw [jsOrNat_of_pos maxI 12 hmx, jsOrNat_of_pos missL 4 hml]
  rw [probeLoop_prefixRun loads maxI missL k s folder hs hml hkM hor
    (k + 1 - 1) 1 (le_refl _) (le_refl 1) (by omega)]
  have e1 : k + 1 - 1 = k := by omega
  have e2 : min maxI (k + missL) + 1 - 1 = min maxI (k + missL) := by omega
  rw [e1, e2]

/-- C2 witness: a folder with images exactly at indices 1 and 2, probed with
`maxIndex = 20`, `missLimit = 5` and the single suffix `jpg`: the probe
returns the two paths in order and attempts exactly indices 1 through 7. -/
theorem c2_prefix_folder_probe_witness :
    (¬ (["jpg"] : List String) = []) ∧ (1 : Nat) ≤ 20 ∧ (1 : Nat) ≤ 5 ∧ (2 : Nat) ≤ 20 ∧
    (∀ j, ((["jpg"].any fun sfx =>
        (fun i (_ : String) => decide (1 ≤ i ∧ i ≤ 2)) j sfx) = true) ↔
      (1 ≤ j ∧ j ≤ 2)) ∧
    probeImagesInFolder "Chair" ⟨some 20, some 5, some ["jpg"]⟩
        (fun i _ => decide (1 ≤ i ∧ i ≤ 2)) =
      ⟨(List.range' 1 2).map
         (fun i => probedAt (fun i2 _ => decide (1 ≤ i2 ∧ i2 ≤ 2)) "Chair" ["jpg"] i),
       List.range' 1 2,
       attemptBlocks ["jpg"] (List.range' 1 (min 20 (2 + 5)))⟩ :=
  ⟨by decide, by decide, by decide, by decide,
   fun j => by simp [List.any_cons, List.any_nil],
   c2_prefix_folder_probe "Chair" 2 20 5 ["jpg"] (fun i _ => decide (1 ≤ i ∧ i ≤ 2))
     (by decide) (by decide) (by decide) (by decide)
     (fun j => by simp [List.any_cons, List.any_nil])⟩

/-- C3: the probe never fails outward — for every load-outcome oracle it
resolves, with a bounded attempt trace of whole per-index blocks from index
1; and when no image loads at all (every attempt misses) it resolves with
the empty sequence after attempting exactly `min maxIndex missLimit`
indices, i.e. after exactly `missLimit` consecutive misses, or fewer if
`maxIndex` is reached first. -/
theorem c3_probe_total_and_empty_on_all_miss (folder : String) (maxI missL : Nat)
    (s : List String) (loads : Nat → String → Bool)
    (hs : ¬ s = []) (hmx : 1 ≤ maxI) (hml : 1 ≤ missL)
    (hnone : ∀ j sfx, loads j sfx = false) :
    (∀ loads2 : Nat → String → Bool, ∃ t, t ≤ maxI ∧
      (probeImagesInFolder folder ⟨some maxI, some missL, some s⟩ loads2).attempts =
        attemptBlocks s (List.range' 1 t)) ∧
    probeImagesInFolder folder ⟨some maxI, some missL, some s⟩ loads =
      ⟨[], [], attemptBlocks s (List.range' 1 (min maxI missL))⟩ := by
  constructor
  · intro loads2
    obtain ⟨t, ht, ha, _, _, _⟩ := probeLoop_shape loads2 (jsOrNat (some maxI) 12)
      (jsOrNat (some missL) 4) s folder (jsOrNat (some maxI) 12 + 1 - 1) 1 0 (le_refl _)
    refine ⟨t, ?_, ha⟩
    rw [jsOrNat_of_pos maxI 12 hmx] at ht
    omega
  · show probeLoop loads (jsOrNat (some maxI) 12) (jsOrNat (some missL) 4) s folder 1 0 = _
    rw [jsOrNat_of_pos maxI 12 hmx, jsOrNat_of_pos missL 4 hml]
    rw [probeLoop_missFrom loads maxI missL s folder hs (maxI + 1 - 1) 1 0 (le_refl _)
      (fun j _ => by simp [hnone])]
    have e : min (maxI + 1 - 1) (missL - 0) = min maxI missL := by omega
    rw [e]

/-- C3 witness: the default-shaped options `maxIndex = 12`, `missLimit = 4`,
single suffix `jpg`, with an oracle on which every load fails: the probe
resolves with no results after attempting exactly indices 1 through 4. -/
theorem c3_probe_total_and_empty_on_all_miss_witness :
    (¬ (["jpg"] : List String) = []) ∧ (1 : Nat) ≤ 12 ∧ (1 : Nat) ≤ 4 ∧
    (∀ (j : Nat) (sfx : String), (fun (_ : Nat) (_ : String) => false) j sfx = false) ∧
    ((∀ loads2 : Nat → String → Bool, ∃ t, t ≤ 12 ∧
        (probeImagesInFolder "Bero" ⟨some 12, some 4, some ["jpg"]⟩ loads2).attempts =
          attemptBlocks ["jpg"] (List.range' 1 t)) ∧
      probeImagesInFolder "Bero" ⟨some 12, some 4, some ["jpg"]⟩ (fun _ _ => false) =
        ⟨[], [], attemptBlocks ["jpg"] (List.range' 1 (min 12 4))⟩) :=
  ⟨by decide, by decide, by decide, fun _ _ => rfl,
   c3_probe_total_and_empty_on_all_miss "Bero" 12 4 ["jpg"] (fun _ _ => false)
     (by decide) (by decide) (by decide) (fun _ _ => rfl)⟩

/-- C9: in every probe run, the load-attempt trace is exactly a sequence of
whole per-index suffix blocks for consecutive indices starting at 1 — the
attempts for index N+1 appear only after all attempts of index N — and the
indices at which results were pushed are strictly increasing, with one
result per pushed index. -/
theorem c9_attempts_blockwise_results_increasing (folder : String)
    (options : ProbeOptions) (loads : Nat → String → Bool) :
    ∃ t, (probeImagesInFolder folder options loads).attempts =
        attemptBlocks (jsOrList options.suffixes ["jpg", "jpeg", "png", "webp"])
          (List.range' 1 t) ∧
      List.Chain' (· < ·) (probeImagesInFolder folder options loads).foundIdxs ∧
      (probeImagesInFolder folder options loads).found.length =
        (probeImagesInFolder folder options loads).foundIdxs.length := by
  obtain ⟨t, _, ha, hc, _, hl⟩ := probeLoop_shape loads (jsOrNat options.maxIndex 12)
    (jsOrNat options.missLimit 4) (jsOrList options.suffixes ["jpg", "jpeg", "png", "webp"])
    folder (jsOrNat options.maxIndex 12 + 1 - 1) 1 0 (le_refl _)
  exact ⟨t, ha, hc, hl⟩

/-- C5: a card whose probe completions only ever deliver exactly one image
never has an autoplay timer set and keeps both navigation controls hidden,
in every state reachable through its handlers. -/
theorem c5_single_image_no_autoplay_controls_hidden (name : String)
    (evs : List CardEvent)
    (h : ∀ found, CardEvent.probeComplete found ∈ evs → found.length = 1) :
    (runEvents name evs).interval = false ∧
    (runEvents name evs).prevShown = false ∧
    (runEvents name evs).nextShown = false := by
  have hinv : OneImageInv (runEvents name evs) := by
    unfold runEvents
    apply OneImageInv_foldl name evs (initialCard name) (OneImageInv_initialCard name)
    intro found hmem
    exact le_of_eq (h found hmem)
  exact ⟨hinv.2.1, hinv.2.2.1, hinv.2.2.2⟩

/-- C5 witness: a card that received exactly one image and was then clicked
and ticked still has no timer and hidden controls. -/
theorem c5_single_image_no_autoplay_controls_hidden_witness :
    (∀ found, CardEvent.probeComplete found ∈
        [CardEvent.probeComplete [⟨"Images/Products/Cot/1.jpg", ""⟩],
         CardEvent.cardClick, CardEvent.tick] → found.length = 1) ∧
    ((runEvents "Cot" [CardEvent.probeComplete [⟨"Images/Products/Cot/1.jpg", ""⟩],
        CardEvent.cardClick, CardEvent.tick]).interval = false ∧
     (runEvents "Cot" [CardEvent.probeComplete [⟨"Images/Products/Cot/1.jpg", ""⟩],
        CardEvent.cardClick, CardEvent.tick]).prevShown = false ∧
     (runEvents "Cot" [CardEvent.probeComplete [⟨"Images/Products/Cot/1.jpg", ""⟩],
        CardEvent.cardClick, CardEvent.tick]).nextShown = false) :=
  ⟨fun found hmem => by
      rcases List.mem_cons.mp hmem with he | hmem
      · cases he
        rfl
      rcases List.mem_cons.mp hmem with he | hmem
      · exact absurd he (by simp)
      rcases List.mem_cons.mp hmem with he | hmem
      · exact absurd he (by simp)
      · exact absurd hmem (List.not_mem_nil _),
   c5_single_image_no_autoplay_controls_hidden "Cot"
     [CardEvent.probeComplete [⟨"Images/Products/Cot/1.jpg", ""⟩],
      CardEvent.cardClick, CardEvent.tick]
     (fun found hmem => by
      rcases List.mem_cons.mp hmem with he | hmem
      · cases he
        rfl
      rcases List.mem_cons.mp hmem with he | hmem
      · exact absurd he (by simp)
      rcases List.mem_cons.mp hmem with he | hmem
      · exact absurd he (by simp)
      · exact absurd hmem (List.not_mem_nil _))⟩

/-- C6: after a probe completion with at least two images (and no further
probe completions), every reachable state of the card shows both navigation
controls and has the autoplay timer set; a tick in such a state leaves the
index unchanged when the pause flag is set and otherwise advances it by
exactly 1 modulo the image count. -/
theorem c6_multi_image_controls_shown_tick_advances (name : String)
    (found : List ProbedImage) (evs : List CardEvent) (st : CardState)
    (h2 : 2 ≤ found.length)
    (hev : ∀ f, CardEvent.probeComplete f ∉ evs)
    (hst : st = runEvents name (CardEvent.probeComplete found :: evs)) :
    st.prevShown = true ∧ st.nextShown = true ∧ st.interval = true ∧
    (st.isPaused = true → (cardStep name st CardEvent.tick).idx = st.idx) ∧
    (st.isPaused = false →
      (cardStep name st CardEvent.tick).idx =
        (st.idx + 1) % (st.images.length : Int)) := by
  have hinv : MultiImageInv st := by
    rw [hst]
    unfold runEvents
    rw [List.foldl_cons]
    exact MultiImageInv_foldl name evs _
      (MultiImageInv_probeComplete name (initialCard name) found h2) hev
  obtain ⟨h2m, hint, hprev, hnext, hge, hlt⟩ := hinv
  have hLpos : (0 : Int) < (st.images.length : Int) := by omega
  refine ⟨hprev, hnext, hint, ?_, ?_⟩
  · intro hp
    simp only [cardStep]
    rw [hint, if_pos rfl, hp]
    rfl
  · intro hp
    simp only [cardStep]
    rw [hint, if_pos rfl, hp]
    show (showImage name st (jsRem (st.idx + 1) (st.images.length : Int))).idx = _
    have hrem1 : jsRem (st.idx + 1) (st.images.length : Int) =
        (st.idx + 1) % (st.images.length : Int) :=
      jsRem_eq_emod _ _ (by omega) (by omega)
    have hb : 0 ≤ (st.idx + 1) % (st.images.length : Int) :=
      Int.emod_nonneg _ (by omega)
    rw [showImage_eq name st _ (by omega)]
    show jsRem _ _ = _
    rw [hrem1, jsRem_eq_emod _ _ (by omega) (by omega)]
    rw [Int.add_emod_self, Int.emod_emod_of_dvd _ dvd_rfl]

/-- C6 witness: a two-image card, hovered (paused) then unhovered, shows the
controls, keeps its timer, and its tick conclusions hold. -/
theorem c6_multi_image_controls_shown_tick_advances_witness :
    (2 : Nat) ≤ ([⟨"Images/Products/Bero/1.jpg", ""⟩,
        ⟨"Images/Products/Bero/2.png", ""⟩] : List ProbedImage).length ∧
    (∀ f, CardEvent.probeComplete f ∉ [CardEvent.mouseEnter, CardEvent.mouseLeave]) ∧
    (let st := runEvents "Bero" (CardEvent.probeComplete
        [⟨"Images/Products/Bero/1.jpg", ""⟩, ⟨"Images/Products/Bero/2.png", ""⟩] ::
        [CardEvent.mouseEnter, CardEvent.mouseLeave]);
      st.prevShown = true ∧ st.nextShown = true ∧ st.interval = true ∧
      (st.isPaused = true → (cardStep "Bero" st CardEvent.tick).idx = st.idx) ∧
      (st.isPaused = false →
        (cardStep "Bero" st CardEvent.tick).idx =
          (st.idx + 1) % (st.images.length : Int))) :=
  ⟨by decide,
   fun f hmem => by
     rcases List.mem_cons.mp hmem with he | hmem
     · exact absurd he.symm (by simp)
     rcases List.mem_cons.mp hmem with he | hmem
     · exact absurd he.symm (by simp)
     · exact absurd hmem (List.not_mem_nil _),
   c6_multi_image_controls_shown_tick_advances "Bero"
     [⟨"Images/Products/Bero/1.jpg", ""⟩, ⟨"Images/Products/Bero/2.png", ""⟩]
     [CardEvent.mouseEnter, CardEvent.mouseLeave] _ (by decide)
     (fun f hmem => by
       rcases List.mem_cons.mp hmem with he | hmem
       · exact absurd he.symm (by simp)
       rcases List.mem_cons.mp hmem with he | hmem
       · exact absurd he.symm (by simp)
       · exact absurd hmem (List.not_mem_nil _))
     rfl⟩

/-- C8: in every state of a card reachable through its handlers, the current
index satisfies `0 ≤ currentIndex < images.length` whenever the image list
is non-empty. -/
theorem c8_current_index_always_in_range (name : String) (evs : List CardEvent)
    (h : (runEvents name evs).images ≠ []) :
    0 ≤ (runEvents name evs).idx ∧
    (runEvents name evs).idx < ((runEvents name evs).images.length : Int) := by
  have hinv : IdxInv (runEvents name evs) := by
    unfold runEvents
    exact IdxInv_foldl name evs (initialCard name) (IdxInv_initialCard name)
  exact ⟨hinv.1, hinv.2 h⟩

/-- C8 witness: after a two-image probe completion followed by a `previous`
click (wrapping from 0 to the end), the index is in range. -/
theorem c8_current_index_always_in_range_witness :
    (runEvents "Chair" [CardEvent.probeComplete
        [⟨"1.jpg", ""⟩, ⟨"2.jpg", ""⟩], CardEvent.prevClick]).images ≠ [] ∧
    (0 ≤ (runEvents "Chair" [CardEvent.probeComplete
        [⟨"1.jpg", ""⟩, ⟨"2.jpg", ""⟩], CardEvent.prevClick]).idx ∧
     (runEvents "Chair" [CardEvent.probeComplete
        [⟨"1.jpg", ""⟩, ⟨"2.jpg", ""⟩], CardEvent.prevClick]).idx <
       ((runEvents "Chair" [CardEvent.probeComplete
        [⟨"1.jpg", ""⟩, ⟨"2.jpg", ""⟩], CardEvent.prevClick]).images.length : Int)) :=
  ⟨by decide,
   c8_current_index_always_in_range "Chair"
     [CardEvent.probeComplete [⟨"1.jpg", ""⟩, ⟨"2.jpg", ""⟩], CardEvent.prevClick]
     (by decide)⟩
